import Mathlib

/- Verification development for src/agent.py: a small UI agent that parses
   instructions of the form

     send email to <address> about <subject> saying <quote><body><quote>

   (mock_llm_reason, lines 19-27), compiles a provider-specific list of five
   UI steps (lines 30-57), runs an advisory label check against an HTML
   snapshot (lines 59-67) and executes the steps against a live page with a
   5000 ms visibility wait, a 2000 ms settle delay and a screenshot-on-timeout
   recovery (GenericUIAgent.execute, lines 83-131).

   Strings are modelled as lists of characters.  The Python regular
   expression used by the parser, applied by re.match to the lowercased
   instruction, is embedded as an executable matcher with the same greedy,
   leftmost, anchored-at-the-start (prefix, not full-match) semantics.
   The character class of the address parts is modelled as ASCII
   alphanumerics plus underscore, dot and hyphen; Python's str.lower is
   modelled by mapping Char.toLower over the characters (these agree on
   ASCII input, which is the only input the program is used with). -/

def quoteChar : Char := Char.ofNat 39

def newlineChar : Char := Char.ofNat 10

/- One character of the address classes of the regex: ASCII word characters
   plus dot and hyphen. -/
def isEmailChar (c : Char) : Bool := c.isAlphanum || c == '_' || c == '.' || c == '-'

/- One character matched by the regex metacharacter dot: anything except a
   newline (re.DOTALL is not set). -/
def isDotChar (c : Char) : Bool := !(c == newlineChar)

def lowerL (s : List Char) : List Char := s.map Char.toLower

def lowerStr (s : String) : String := String.mk (lowerL s.data)

/- The literal pieces of the regex, as explicit character lists:
   sendLit is the text send email to followed by a space, aboutLit is
   about surrounded by spaces, sayingLit is a space, the word saying,
   a space and the opening single quote. -/
def sendLit : List Char := ['s','e','n','d',' ','e','m','a','i','l',' ','t','o',' ']

def aboutTail : List Char := ['a','b','o','u','t',' ']

def aboutLit : List Char := ' ' :: aboutTail

def sayingTail : List Char := ['s','a','y','i','n','g',' ', quoteChar]

def sayingLit : List Char := ' ' :: sayingTail

def hasPrefixL : List Char → List Char → Bool
  | [], _ => true
  | _ :: _, [] => false
  | a :: as, b :: bs => a == b && hasPrefixL as bs

def stripPrefixL : List Char → List Char → Option (List Char)
  | [], s => some s
  | _ :: _, [] => none
  | a :: as, b :: bs => if a = b then stripPrefixL as bs else none

/- Substring (contiguous) occurrence test. -/
def containsSub (p : List Char) : List Char → Bool
  | [] => hasPrefixL p []
  | c :: rest => hasPrefixL p (c :: rest) || containsSub p rest

/- The greedy one-or-more character-class matcher of the regex.  Because
   the characters that follow the class in the pattern (the at sign after
   the local part, the space after the domain) are themselves outside the
   class, the backtracking greedy match is equivalent to taking the maximal
   run of class characters, which is what this function returns together
   with the remaining input. -/
def takeEmail : List Char → List Char × List Char
  | [] => ([], [])
  | c :: cs =>
    if isEmailChar c then
      ((c :: (takeEmail cs).1), (takeEmail cs).2)
    else
      ([], c :: cs)

/- Greedy match of: any run of dot characters, then a closing single quote.
   Returns the captured run and the input after the quote.  Longer runs are
   preferred (the recursive branch is tried before consuming the quote at
   the current position), exactly like the backtracking of the Python
   engine. -/
def dotStarQuote : List Char → Option (List Char × List Char)
  | [] => none
  | c :: cs =>
    match (if isDotChar c then dotStarQuote cs else none) with
    | some (cap, r) => some (c :: cap, r)
    | none => if c = quoteChar then some ([], cs) else none

/- Greedy match of the body group followed by the closing quote: at least
   one dot character, then dotStarQuote for the rest.  Anything after the
   closing quote is left unconsumed: re.match accepts trailing text. -/
def matchBody : List Char → Option (List Char × List Char)
  | [] => none
  | c :: cs =>
    if isDotChar c then
      match dotStarQuote cs with
      | some (cap, r) => some (c :: cap, r)
      | none => none
    else
      none

/- Try to match the literal saying-with-opening-quote, then the body group,
   at the current position (the zero-length case of the subject star). -/
def matchHere (s : List Char) : Option (List Char × List Char × List Char) :=
  match stripPrefixL sayingLit s with
  | none => none
  | some rest =>
    match matchBody rest with
    | none => none
    | some (b, r) => some ([], b, r)

/- Greedy match of: the subject group (star of dot characters), then the
   saying literal, then the body group and closing quote.  The recursive
   branch extends the subject first, so the literal is matched at the
   latest position from which the remainder of the pattern succeeds --
   the backtracking greedy semantics of the Python engine.  Returns
   (subject, body, trailing input). -/
def matchSubjectBody : List Char → Option (List Char × List Char × List Char)
  | [] => matchHere []
  | c :: cs =>
    match (if isDotChar c then matchSubjectBody cs else none) with
    | some (subj, b, r) => some (c :: subj, b, r)
    | none => matchHere (c :: cs)

/- The structured task extracted by the parsing stage of mock_llm_reason:
   the three captured groups to_email, subject, body of line 27. -/
structure TaskRequest where
  recipient : String
  subject : String
  body : String
deriving DecidableEq

/- The instruction-parsing stage of mock_llm_reason (lines 19-27): the
   anchored regex match against the (already lowercased) instruction.
   none models the ValueError "Invalid instruction format". -/
def parseCore (s : List Char) : Option TaskRequest :=
  match stripPrefixL sendLit s with
  | none => none
  | some s1 =>
    match takeEmail s1 with
    | (lp, s2) =>
      if lp = [] then none
      else
        match s2 with
        | [] => none
        | c :: s3 =>
          if c = '@' then
            match takeEmail s3 with
            | (dm, s4) =>
              if dm = [] then none
              else
                match stripPrefixL aboutLit s4 with
                | none => none
                | some s5 =>
                  match matchSubjectBody s5 with
                  | none => none
                  | some (subj, b, _) =>
                    some ⟨String.mk (lp ++ '@' :: dm), String.mk subj, String.mk b⟩
          else none

/- Line 21: the whole instruction is lowercased before the regex is applied,
   so all three captured groups come from the lowercased text. -/
def mock_llm_parse (instruction : String) : Option TaskRequest :=
  parseCore (lowerL instruction.data)

def qS : String := String.mk [quoteChar]

/- The provider label table of mock_llm_reason, lines 30-45: the inner
   dictionaries for gmail and outlook. -/
structure Labels where
  compose_button : String
  to_label : String
  subject_label : String
  body_label : String
  send_button : String
deriving DecidableEq

def gmailLabels : Labels :=
  ⟨"Compose", "To", "Subject", "Message Body", "Send"⟩

def outlookLabels : Labels :=
  ⟨"New message", "To", "Add a subject", "Message body", "Send"⟩

/- The outer dictionary lookup with .get (lines 30-45) followed by the
   emptiness check of line 47: an unknown provider yields none, which
   models the ValueError "Unsupported provider" of line 48. -/
def labelsFor (provider : String) : Option Labels :=
  if provider = "gmail" then some gmailLabels
  else if provider = "outlook" then some outlookLabels
  else none

/- The same dictionary viewed as the key-to-value association list that
   the advisory loop of lines 60-67 indexes into.  The keys are the five
   field names of the Python dict literal. -/
def labelsDict (L : Labels) : List (String × String) :=
  [("compose_button", L.compose_button),
   ("to_label", L.to_label),
   ("subject_label", L.subject_label),
   ("body_label", L.body_label),
   ("send_button", L.send_button)]

/- One abstract step of the plan, lines 51-57: a pair of an action type and
   a parameter dict.  click_button carries name and role, fill_input
   carries label and value. -/
inductive Step where
  | click_button (name role : String)
  | fill_input (label value : String)
deriving DecidableEq

/- The five-step plan assembled at lines 51-57. -/
def mkSteps (task : TaskRequest) (L : Labels) : List Step :=
  [Step.click_button L.compose_button "button",
   Step.fill_input L.to_label task.recipient,
   Step.fill_input L.subject_label task.subject,
   Step.fill_input L.body_label task.body,
   Step.click_button L.send_button "button"]

/- Whether the params dict of a step has a label key, and its value:
   the test (quote label quote) in step[1] of line 62. -/
def stepLabel : Step → Option String
  | Step.click_button _ _ => none
  | Step.fill_input label _ => some label

/- The failure modes of the program, used as the error side of Except and
   as part of run outcomes.  invalidInstruction is the ValueError of line
   24, unsupportedProvider the ValueError of lines 48 and 80, pyKeyError
   the Python KeyError raised by the dict indexing of line 63,
   resolutionTimedOut the TimeoutError re-raised at line 128 (tagged here
   with the failing action index), captureFailed the case where the
   screenshot call of line 127 itself raises, which then propagates out of
   the except block in place of the original TimeoutError. -/
inductive AgentError where
  | invalidInstruction
  | unsupportedProvider
  | pyKeyError (key : String)
  | resolutionTimedOut (idx : Nat)
  | captureFailed (idx : Nat)
deriving DecidableEq

/- The advisory consistency loop of lines 59-67, which walks the steps in
   order and, for each step whose params contain a label, evaluates
   labels[value-of-label-key lowercased].  That subscript is evaluated
   before the membership test, and raises KeyError when the lowercased
   label value is not one of the five dict keys.  When the subscript does
   succeed, a missing label only appends a warning (here: the label is
   collected in the returned list; the code logs it at line 65). -/
def advisoryCheck (L : Labels) (html : String) : List Step → Except AgentError (List String)
  | [] => Except.ok []
  | s :: rest =>
    match stepLabel s with
    | none => advisoryCheck L html rest
    | some lab =>
      match (labelsDict L).lookup (lowerStr lab) with
      | none => Except.error (AgentError.pyKeyError (lowerStr lab))
      | some v =>
        match advisoryCheck L html rest with
        | Except.error e => Except.error e
        | Except.ok ws =>
          Except.ok (if containsSub v.data (lowerL html.data) then ws else lab :: ws)

/- mock_llm_reason, lines 12-69, end to end: parse the instruction
   (lowercased, line 21), look up the provider labels (lines 30-48), build
   the five steps (lines 51-57), run the advisory loop (lines 59-67) and
   return the steps (line 69).  Every raise becomes an error value. -/
def mock_llm_reason (instruction html_content provider : String) :
    Except AgentError (List Step) :=
  match mock_llm_parse instruction with
  | none => Except.error AgentError.invalidInstruction
  | some task =>
    match labelsFor provider with
    | none => Except.error AgentError.unsupportedProvider
    | some L =>
      let steps := mkSteps task L
      match advisoryCheck L html_content steps with
      | Except.error e => Except.error e
      | Except.ok _ => Except.ok steps

def isOkB : Except AgentError (List Step) → Bool
  | Except.ok _ => true
  | Except.error _ => false

instance : DecidableEq (Except AgentError (List Step)) := fun a b =>
  match a, b with
  | Except.ok x, Except.ok y =>
    if h : x = y then isTrue (by subst h; rfl) else isFalse (by simp [h])
  | Except.ok _, Except.error _ => isFalse (by simp)
  | Except.error _, Except.ok _ => isFalse (by simp)
  | Except.error e, Except.error f =>
    if h : e = f then isTrue (by subst h; rfl) else isFalse (by simp [h])

/- Session operations performed by GenericUIAgent.execute, in the order the
   code issues them, recorded as a trace.  goto is page.goto (line 91),
   waitLoadState is wait_for_load_state (line 99), getContent is
   page.content (line 102), resolveRole and resolveLabel are get_by_role
   and get_by_label (lines 110, 117), waitVisible is locator.wait_for with
   its millisecond bound (lines 113, 118), click and fill are the
   interactions (lines 114, 119), settle is wait_for_timeout (line 123)
   and screenshot is the diagnostic capture of line 127. -/
inductive Event where
  | goto (url : String)
  | waitLoadState
  | getContent
  | resolveRole (role name : String)
  | resolveLabel (label : String)
  | waitVisible (timeoutMs : Nat)
  | click (name : String)
  | fill (label value : String)
  | settle (ms : Nat)
  | screenshot (path : String)
deriving DecidableEq

inductive Outcome where
  | completed
  | failed (e : AgentError)
deriving DecidableEq

/- The session operations of one successfully executed step: resolve,
   bounded visibility wait, interaction, then the fixed settle delay
   (lines 109-123). -/
def stepEvents : Step → List Event
  | Step.click_button name role =>
    [Event.resolveRole role name, Event.waitVisible 5000, Event.click name, Event.settle 2000]
  | Step.fill_input label value =>
    [Event.resolveLabel label, Event.waitVisible 5000, Event.fill label value, Event.settle 2000]

/- The session operations of a step whose visibility wait times out:
   resolve, the wait that exceeds its bound, then the screenshot attempt of
   the except block (lines 124-127).  The screenshot path is the f-string
   error_provider.png of line 127. -/
def failEvents (provider : String) : Step → List Event
  | Step.click_button name role =>
    [Event.resolveRole role name, Event.waitVisible 5000,
     Event.screenshot ("error_" ++ provider ++ ".png")]
  | Step.fill_input label _ =>
    [Event.resolveLabel label, Event.waitVisible 5000,
     Event.screenshot ("error_" ++ provider ++ ".png")]

/- The concatenated trace of a fully successful plan. -/
def planEvents : List Step → List Event
  | [] => []
  | s :: rest => stepEvents s ++ planEvents rest

/- The for loop of lines 107-128 as a trace semantics.  The external
   session is abstracted by two oracles indexed by the position of the
   action in the plan: visible says whether the element of that action
   becomes visible within the 5000 ms bound of wait_for, and shotOk says
   whether the screenshot call of the except handler itself succeeds.
   When the wait times out the code logs, screenshots and re-raises, so
   the loop stops: with a successful screenshot the original TimeoutError
   propagates (resolutionTimedOut); when the screenshot itself raises,
   Python propagates that new exception out of the except block in place
   of the original one (captureFailed). -/
def runSteps (provider : String) (visible shotOk : Nat → Bool) :
    List Step → Nat → List Event × Outcome
  | [], _ => ([], Outcome.completed)
  | s :: rest, i =>
    if visible i then
      ((stepEvents s ++ (runSteps provider visible shotOk rest (i + 1)).1),
       (runSteps provider visible shotOk rest (i + 1)).2)
    else
      (failEvents provider s,
       Outcome.failed (if shotOk i then AgentError.resolutionTimedOut i
                       else AgentError.captureFailed i))

/- The URL dictionary of GenericUIAgent.__init__, lines 75-78. -/
def urlFor (provider : String) : Option String :=
  if provider = "gmail" then some "https://mail.google.com"
  else if provider = "outlook" then some "https://outlook.live.com/mail/"
  else none

/- GenericUIAgent, construction plus execute, as a trace semantics
   (lines 72-131).  A provider outside the URL dictionary makes __init__
   raise ValueError before any session exists (lines 79-80): no events.
   Otherwise execute navigates, waits for the load state, reads the page
   content lowercased (lines 91-102), only then calls mock_llm_reason with
   that content (line 105), and finally runs the step loop.  pageHtml is
   the content the session returns for the page. -/
def executeModel (provider instruction pageHtml : String)
    (visible shotOk : Nat → Bool) : List Event × Outcome :=
  match urlFor provider with
  | none => ([], Outcome.failed AgentError.unsupportedProvider)
  | some url =>
    let pre : List Event := [Event.goto url, Event.waitLoadState, Event.getContent]
    match mock_llm_reason instruction (lowerStr pageHtml) provider with
    | Except.error e => (pre, Outcome.failed e)
    | Except.ok steps =>
      ((pre ++ (runSteps provider visible shotOk steps 0).1),
       (runSteps provider visible shotOk steps 0).2)

def exampleTask : TaskRequest := ⟨"joe@example.com", "meeting", "hello"⟩

def exampleSteps : List Step := mkSteps exampleTask gmailLabels

/- Helper lemmas about the string primitives. -/

theorem stripPrefixL_append (p r : List Char) : stripPrefixL p (p ++ r) = some r := by
  induction p with
  | nil => rfl
  | cons a as ih => simp [stripPrefixL, ih]

theorem stripPrefixL_sound (p : List Char) :
    ∀ s r, stripPrefixL p s = some r → s = p ++ r := by
  induction p with
  | nil =>
    intro s r h
    simp [stripPrefixL] at h
    simp [h]
  | cons a as ih =>
    intro s r h
    cases s with
    | nil => exact Option.noConfusion h
    | cons b bs =>
      simp only [stripPrefixL] at h
      by_cases hab : a = b
      · subst hab
        rw [if_pos rfl] at h
        simp [ih bs r h]
      · rw [if_neg hab] at h
        exact Option.noConfusion h

theorem stripPrefixL_none (p : List Char) :
    ∀ s, hasPrefixL p s = false → stripPrefixL p s = none := by
  induction p with
  | nil => intro s h; simp [hasPrefixL] at h
  | cons a as ih =>
    intro s h
    cases s with
    | nil => rfl
    | cons b bs =>
      simp only [hasPrefixL, Bool.and_eq_false_iff, beq_eq_false_iff_ne, ne_eq] at h
      by_cases hab : a = b
      · subst hab
        simp only [stripPrefixL, if_pos rfl]
        rcases h with h | h
        · exact absurd rfl h
        · exact ih bs h
      · simp [stripPrefixL, hab]

theorem containsSub_cons (p : List Char) (c : Char) (cs : List Char) :
    containsSub p (c :: cs) = (hasPrefixL p (c :: cs) || containsSub p cs) := rfl

theorem takeEmail_sound :
    ∀ (s lp r : List Char), takeEmail s = (lp, r) →
      s = lp ++ r ∧ ∀ c ∈ lp, isEmailChar c = true
  | [], lp, r, h => by
    simp only [takeEmail, Prod.mk.injEq] at h
    obtain ⟨h1, h2⟩ := h
    subst h1; subst h2
    exact ⟨rfl, by simp⟩
  | c :: cs, lp, r, h => by
    cases hc : isEmailChar c with
    | true =>
      rcases hte : takeEmail cs with ⟨a, b⟩
      simp only [takeEmail, hc, if_true, hte, Prod.mk.injEq] at h
      obtain ⟨h1, h2⟩ := h
      subst h1; subst h2
      obtain ⟨ih1, ih2⟩ := takeEmail_sound cs a b hte
      refine ⟨by simp [ih1], ?_⟩
      intro x hx
      rcases List.mem_cons.mp hx with hx | hx
      · subst hx; exact hc
      · exact ih2 x hx
    | false =>
      simp only [takeEmail, hc, Bool.false_eq_true, if_false, Prod.mk.injEq] at h
      obtain ⟨h1, h2⟩ := h
      subst h1; subst h2
      exact ⟨rfl, by simp⟩

theorem takeEmail_append (a : List Char) (c : Char) (r : List Char)
    (ha : ∀ x ∈ a, isEmailChar x = true) (hc : isEmailChar c = false) :
    takeEmail (a ++ c :: r) = (a, c :: r) := by
  induction a with
  | nil => simp [takeEmail, hc]
  | cons x xs ih =>
    have hx : isEmailChar x = true := ha x (List.mem_cons_self x xs)
    have ih2 := ih (fun y hy => ha y (List.mem_cons_of_mem x hy))
    simp [takeEmail, hx, ih2]

theorem takeEmail_all (a : List Char) (ha : ∀ x ∈ a, isEmailChar x = true) :
    takeEmail a = (a, []) := by
  induction a with
  | nil => rfl
  | cons x xs ih =>
    have hx : isEmailChar x = true := ha x (List.mem_cons_self x xs)
    have ih2 := ih (fun y hy => ha y (List.mem_cons_of_mem x hy))
    simp [takeEmail, hx, ih2]

/- Helper lemmas about the greedy matcher. -/

theorem dotStarQuote_complete (x : List Char) (hx : ∀ c ∈ x, isDotChar c = true) :
    dotStarQuote (x ++ [quoteChar]) = some (x, []) := by
  induction x with
  | nil => rfl
  | cons c cs ih =>
    have hc : isDotChar c = true := hx c (List.mem_cons_self c cs)
    have ih2 := ih (fun a ha => hx a (List.mem_cons_of_mem c ha))
    rw [show (c :: cs) ++ [quoteChar] = c :: (cs ++ [quoteChar]) from rfl]
    rw [dotStarQuote, if_pos hc, ih2]

theorem matchBody_complete (b : List Char) (hb : b ≠ [])
    (hbc : ∀ c ∈ b, isDotChar c = true) :
    matchBody (b ++ [quoteChar]) = some (b, []) := by
  cases b with
  | nil => exact absurd rfl hb
  | cons c cs =>
    have hc : isDotChar c = true := hbc c (List.mem_cons_self c cs)
    have h2 := dotStarQuote_complete cs (fun a ha => hbc a (List.mem_cons_of_mem c ha))
    rw [show (c :: cs) ++ [quoteChar] = c :: (cs ++ [quoteChar]) from rfl]
    rw [matchBody, if_pos hc, h2]

theorem dotStarQuote_sound :
    ∀ (s cap r : List Char), dotStarQuote s = some (cap, r) →
      s = cap ++ quoteChar :: r ∧ ∀ c ∈ cap, isDotChar c = true
  | [], cap, r, h => Option.noConfusion h
  | c :: cs, cap, r, h => by
    simp only [dotStarQuote] at h
    rcases hdq : (if isDotChar c = true then dotStarQuote cs else none) with _ | ⟨cap2, r2⟩
    · rw [hdq] at h
      by_cases hcq : c = quoteChar
      · rw [if_pos hcq] at h
        simp only [Option.some.injEq, Prod.mk.injEq] at h
        obtain ⟨h1, h2⟩ := h
        subst h1; subst h2; subst hcq
        exact ⟨rfl, by simp⟩
      · rw [if_neg hcq] at h
        exact Option.noConfusion h
    · rw [hdq] at h
      simp only [Option.some.injEq, Prod.mk.injEq] at h
      obtain ⟨h1, h2⟩ := h
      subst h1; subst h2
      have hd : isDotChar c = true := by
        by_contra hnd
        rw [if_neg hnd] at hdq
        exact Option.noConfusion hdq
      rw [if_pos hd] at hdq
      obtain ⟨ih1, ih2⟩ := dotStarQuote_sound cs cap2 r2 hdq
      refine ⟨by simp [ih1], ?_⟩
      intro x hx
      rcases List.mem_cons.mp hx with hx | hx
      · subst hx; exact hd
      · exact ih2 x hx

theorem matchBody_sound (s b r : List Char) (h : matchBody s = some (b, r)) :
    s = b ++ quoteChar :: r ∧ b ≠ [] ∧ ∀ c ∈ b, isDotChar c = true := by
  cases s with
  | nil => exact Option.noConfusion h
  | cons c cs =>
    simp only [matchBody] at h
    by_cases hd : isDotChar c = true
    · rw [if_pos hd] at h
      rcases hdq : dotStarQuote cs with _ | ⟨cap, r2⟩
      · rw [hdq] at h
        exact Option.noConfusion h
      · rw [hdq] at h
        simp only [Option.some.injEq, Prod.mk.injEq] at h
        obtain ⟨h1, h2⟩ := h
        subst h1; subst h2
        obtain ⟨s1, s2⟩ := dotStarQuote_sound cs cap r2 hdq
        refine ⟨by simp [s1], by simp, ?_⟩
        intro x hx
        rcases List.mem_cons.mp hx with hx | hx
        · subst hx; exact hd
        · exact s2 x hx
    · rw [if_neg hd] at h
      exact Option.noConfusion h

theorem matchHere_sound (s subj b r : List Char)
    (h : matchHere s = some (subj, b, r)) :
    subj = [] ∧ s = sayingLit ++ (b ++ quoteChar :: r) ∧ b ≠ [] ∧
      ∀ c ∈ b, isDotChar c = true := by
  unfold matchHere at h
  split at h
  · exact Option.noConfusion h
  · rename_i rest hsp
    split at h
    · exact Option.noConfusion h
    · rename_i b2 r2 hmb
      simp only [Option.some.injEq, Prod.mk.injEq] at h
      obtain ⟨h1, h2, h3⟩ := h
      obtain ⟨m1, m2, m3⟩ := matchBody_sound rest b2 r2 hmb
      have e := stripPrefixL_sound sayingLit s rest hsp
      subst h1; subst h2; subst h3
      exact ⟨rfl, by rw [e, m1], m2, m3⟩

theorem matchSubjectBody_sound :
    ∀ (s subj b r : List Char), matchSubjectBody s = some (subj, b, r) →
      s = subj ++ (sayingLit ++ (b ++ quoteChar :: r)) ∧
      (∀ c ∈ subj, isDotChar c = true) ∧ b ≠ [] ∧ ∀ c ∈ b, isDotChar c = true
  | [], subj, b, r, h => by
    have hz : matchSubjectBody [] = none := rfl
    rw [hz] at h
    exact Option.noConfusion h
  | c :: cs, subj, b, r, h => by
    simp only [matchSubjectBody] at h
    rcases hin : (if isDotChar c = true then matchSubjectBody cs else none) with _ | ⟨subj2, b2, r2⟩
    · rw [hin] at h
      obtain ⟨h1, h2, h3, h4⟩ := matchHere_sound _ _ _ _ h
      subst h1
      exact ⟨by simpa using h2, by simp, h3, h4⟩
    · rw [hin] at h
      simp only [Option.some.injEq, Prod.mk.injEq] at h
      obtain ⟨h1, h2, h3⟩ := h
      subst h1; subst h2; subst h3
      have hd : isDotChar c = true := by
        by_contra hnd
        rw [if_neg hnd] at hin
        exact Option.noConfusion hin
      rw [if_pos hd] at hin
      obtain ⟨s1, s2, s3, s4⟩ := matchSubjectBody_sound cs subj2 b2 r2 hin
      refine ⟨by simp [s1], ?_, s3, s4⟩
      intro x hx
      rcases List.mem_cons.mp hx with hx | hx
      · subst hx; exact hd
      · exact s2 x hx

theorem matchHere_none (s : List Char) (h : hasPrefixL sayingLit s = false) :
    matchHere s = none := by
  unfold matchHere
  rw [stripPrefixL_none sayingLit s h]

theorem matchSubjectBody_none (s : List Char)
    (h : containsSub sayingLit s = false) : matchSubjectBody s = none := by
  induction s with
  | nil => rfl
  | cons c cs ih =>
    rw [containsSub_cons, Bool.or_eq_false_iff] at h
    obtain ⟨h1, h2⟩ := h
    have hm := matchHere_none (c :: cs) h1
    by_cases hd : isDotChar c = true
    · rw [matchSubjectBody, if_pos hd, ih h2]
      exact hm
    · rw [matchSubjectBody, if_neg hd]
      exact hm

theorem matchSubjectBody_complete (subj b : List Char)
    (hsc : ∀ c ∈ subj, isDotChar c = true) (hb : b ≠ [])
    (hbc : ∀ c ∈ b, isDotChar c = true)
    (hno : containsSub sayingLit (sayingTail ++ (b ++ [quoteChar])) = false) :
    matchSubjectBody (subj ++ (sayingLit ++ (b ++ [quoteChar]))) = some (subj, b, []) := by
  induction subj with
  | nil =>
    have hext : matchSubjectBody (sayingTail ++ (b ++ [quoteChar])) = none :=
      matchSubjectBody_none _ hno
    have hsp : stripPrefixL sayingLit (sayingLit ++ (b ++ [quoteChar])) =
        some (b ++ [quoteChar]) := stripPrefixL_append _ _
    have hmb : matchBody (b ++ [quoteChar]) = some (b, []) := matchBody_complete b hb hbc
    have hmh : matchHere (' ' :: (sayingTail ++ (b ++ [quoteChar]))) = some ([], b, []) := by
      unfold matchHere
      rw [show (' ' :: (sayingTail ++ (b ++ [quoteChar]))) = sayingLit ++ (b ++ [quoteChar])
        from rfl, hsp]
      dsimp only
      rw [hmb]
    show matchSubjectBody (' ' :: (sayingTail ++ (b ++ [quoteChar]))) = some ([], b, [])
    have hds : isDotChar ' ' = true := rfl
    rw [matchSubjectBody, if_pos hds, hext]
    exact hmh
  | cons c cs ih =>
    have hc : isDotChar c = true := hsc c (List.mem_cons_self c cs)
    have ihr := ih (fun a ha => hsc a (List.mem_cons_of_mem c ha))
    rw [show (c :: cs) ++ (sayingLit ++ (b ++ [quoteChar])) =
      c :: (cs ++ (sayingLit ++ (b ++ [quoteChar]))) from rfl]
    rw [matchSubjectBody, if_pos hc, ihr]

/- Soundness of the parsing stage: every successful parse decomposes the
   (lowercased) input as the grammar literals around the three captured
   groups, followed by arbitrary trailing text after the closing quote
   (re.match does not anchor the end of the pattern). -/
theorem parseCore_sound (s : List Char) (t : TaskRequest) (h : parseCore s = some t) :
    ∃ lp dm subj b rest,
      s = sendLit ++ (lp ++ ('@' :: (dm ++ (aboutLit ++
        (subj ++ (sayingLit ++ (b ++ quoteChar :: rest))))))) ∧
      lp ≠ [] ∧ (∀ c ∈ lp, isEmailChar c = true) ∧
      dm ≠ [] ∧ (∀ c ∈ dm, isEmailChar c = true) ∧
      (∀ c ∈ subj, isDotChar c = true) ∧
      b ≠ [] ∧ (∀ c ∈ b, isDotChar c = true) ∧
      t = ⟨String.mk (lp ++ '@' :: dm), String.mk subj, String.mk b⟩ := by
  unfold parseCore at h
  rcases h0 : stripPrefixL sendLit s with _ | s1
  · rw [h0] at h; exact Option.noConfusion h
  rw [h0] at h
  dsimp only at h
  rcases h1 : takeEmail s1 with ⟨lp, s2⟩
  rw [h1] at h
  dsimp only at h
  by_cases hlp : lp = []
  · rw [if_pos hlp] at h; exact Option.noConfusion h
  rw [if_neg hlp] at h
  cases s2 with
  | nil => exact Option.noConfusion h
  | cons c s3 =>
    dsimp only at h
    by_cases hc : c = '@'
    · rw [if_pos hc] at h
      subst hc
      rcases h2 : takeEmail s3 with ⟨dm, s4⟩
      rw [h2] at h
      dsimp only at h
      by_cases hdm : dm = []
      · rw [if_pos hdm] at h; exact Option.noConfusion h
      rw [if_neg hdm] at h
      rcases h3 : stripPrefixL aboutLit s4 with _ | s5
      · rw [h3] at h; exact Option.noConfusion h
      rw [h3] at h
      dsimp only at h
      rcases h4 : matchSubjectBody s5 with _ | ⟨subj, b, rest⟩
      · rw [h4] at h; exact Option.noConfusion h
      rw [h4] at h
      dsimp only at h
      have ht : t = ⟨String.mk (lp ++ '@' :: dm), String.mk subj, String.mk b⟩ := by
        cases h; rfl
      obtain ⟨e1, e1c⟩ := takeEmail_sound s1 lp ('@' :: s3) h1
      obtain ⟨e2, e2c⟩ := takeEmail_sound s3 dm s4 h2
      have e0 := stripPrefixL_sound sendLit s s1 h0
      have e3 := stripPrefixL_sound aboutLit s4 s5 h3
      obtain ⟨e4, e4a, e4b, e4c⟩ := matchSubjectBody_sound s5 subj b rest h4
      refine ⟨lp, dm, subj, b, rest, ?_, hlp, e1c, hdm, e2c, e4a, e4b, e4c, ht⟩
      rw [e0, e1, e2, e3, e4]
    · rw [if_neg hc] at h; exact Option.noConfusion h

/- Completeness of the parsing stage: any input of the grammar shape is
   parsed into exactly its three groups, provided the subject and body are
   newline-free, the address parts are runs of address characters, and the
   saying literal does not occur later in the text than the intended
   separator (otherwise the greedy star captures a longer subject). -/
theorem parseCore_complete (lp dm subj b : List Char)
    (hlp : lp ≠ []) (hlpc : ∀ c ∈ lp, isEmailChar c = true)
    (hdm : dm ≠ []) (hdmc : ∀ c ∈ dm, isEmailChar c = true)
    (hsc : ∀ c ∈ subj, isDotChar c = true)
    (hb : b ≠ []) (hbc : ∀ c ∈ b, isDotChar c = true)
    (hno : containsSub sayingLit (sayingTail ++ (b ++ [quoteChar])) = false) :
    parseCore (sendLit ++ (lp ++ ('@' :: (dm ++ (aboutLit ++
        (subj ++ (sayingLit ++ (b ++ [quoteChar])))))))) =
      some ⟨String.mk (lp ++ '@' :: dm), String.mk subj, String.mk b⟩ := by
  have h0 := stripPrefixL_append sendLit
    (lp ++ ('@' :: (dm ++ (aboutLit ++ (subj ++ (sayingLit ++ (b ++ [quoteChar])))))))
  have h1 : takeEmail (lp ++ ('@' :: (dm ++ (aboutLit ++
      (subj ++ (sayingLit ++ (b ++ [quoteChar]))))))) =
      (lp, '@' :: (dm ++ (aboutLit ++ (subj ++ (sayingLit ++ (b ++ [quoteChar])))))) :=
    takeEmail_append _ _ _ hlpc rfl
  have h2 : takeEmail (dm ++ (aboutLit ++ (subj ++ (sayingLit ++ (b ++ [quoteChar]))))) =
      (dm, aboutLit ++ (subj ++ (sayingLit ++ (b ++ [quoteChar])))) := by
    have := takeEmail_append dm ' '
      (aboutTail ++ (subj ++ (sayingLit ++ (b ++ [quoteChar])))) hdmc rfl
    simpa [aboutLit] using this
  have h3 := stripPrefixL_append aboutLit (subj ++ (sayingLit ++ (b ++ [quoteChar])))
  have h4 := matchSubjectBody_complete subj b hsc hb hbc hno
  unfold parseCore
  rw [h0]
  dsimp only
  rw [h1]
  dsimp only
  rw [if_neg hlp, if_pos rfl, h2]
  dsimp only
  rw [if_neg hdm, h3]
  dsimp only
  rw [h4]

/- Helper lemmas about the executor loop. -/

theorem runSteps_ok (provider : String) (vis shot : Nat → Bool) :
    ∀ (steps : List Step) (i : Nat), (∀ j, vis j = true) →
      runSteps provider vis shot steps i = (planEvents steps, Outcome.completed)
  | [], _, _ => rfl
  | s :: rest, i, h => by
    have ih := runSteps_ok provider vis shot rest (i + 1) h
    rw [runSteps, if_pos (h i), ih]
    rfl

theorem runSteps_firstFail (provider : String) (vis shot : Nat → Bool) :
    ∀ (pre : List Step) (s : Step) (post : List Step) (i : Nat),
      (∀ j, j < pre.length → vis (i + j) = true) →
      vis (i + pre.length) = false →
      runSteps provider vis shot (pre ++ s :: post) i =
        (planEvents pre ++ failEvents provider s,
         Outcome.failed (if shot (i + pre.length) = true
           then AgentError.resolutionTimedOut (i + pre.length)
           else AgentError.captureFailed (i + pre.length)))
  | [], s, post, i, _, hfail => by
    have hf : vis i = false := by simpa using hfail
    rw [List.nil_append, runSteps, if_neg (by simp [hf])]
    simp [planEvents]
  | p :: pre, s, post, i, hpre, hfail => by
    have h0 : vis i = true := by simpa using hpre 0 (by simp)
    have hpre2 : ∀ j, j < pre.length → vis (i + 1 + j) = true := by
      intro j hj
      have h := hpre (j + 1) (by simpa using Nat.succ_lt_succ hj)
      have e : i + (j + 1) = i + 1 + j := by omega
      rw [e] at h
      exact h
    have hfail2 : vis (i + 1 + pre.length) = false := by
      have e : i + 1 + pre.length = i + (pre.length + 1) := by omega
      rw [e]
      simpa using hfail
    have ih := runSteps_firstFail provider vis shot pre s post (i + 1) hpre2 hfail2
    rw [List.cons_append, runSteps, if_pos h0, ih]
    have e : i + 1 + pre.length = i + (p :: pre).length := by
      simp [List.length_cons]
      omega
    rw [e]
    simp [planEvents, List.append_assoc]

/- Full (anchored at both ends) match of the address fragment of the regex:
   a nonempty run of address characters, an at sign, and a nonempty run of
   address characters consuming the whole string. -/
def emailOk (r : List Char) : Bool :=
  match takeEmail r with
  | (lp, s2) =>
    if lp = [] then false
    else
      match s2 with
      | [] => false
      | c :: s3 =>
        if c = '@' then
          match takeEmail s3 with
          | (dm, s4) => if dm = [] then false else s4.isEmpty
        else false

theorem emailOk_decomp (r : List Char) (h : emailOk r = true) :
    ∃ lp dm, r = lp ++ '@' :: dm ∧ lp ≠ [] ∧ (∀ c ∈ lp, isEmailChar c = true) ∧
      dm ≠ [] ∧ (∀ c ∈ dm, isEmailChar c = true) := by
  unfold emailOk at h
  rcases h1 : takeEmail r with ⟨lp, s2⟩
  rw [h1] at h
  dsimp only at h
  by_cases hlp : lp = []
  · rw [if_pos hlp] at h; exact Bool.noConfusion h
  rw [if_neg hlp] at h
  cases s2 with
  | nil => exact Bool.noConfusion h
  | cons c s3 =>
    dsimp only at h
    by_cases hc : c = '@'
    · rw [if_pos hc] at h
      subst hc
      rcases h2 : takeEmail s3 with ⟨dm, s4⟩
      rw [h2] at h
      dsimp only at h
      by_cases hdm : dm = []
      · rw [if_pos hdm] at h; exact Bool.noConfusion h
      rw [if_neg hdm] at h
      have hs4 : s4 = [] := by
        cases s4 with
        | nil => rfl
        | cons x xs => exact Bool.noConfusion h
      obtain ⟨e1, e1c⟩ := takeEmail_sound r lp ('@' :: s3) h1
      obtain ⟨e2, e2c⟩ := takeEmail_sound s3 dm s4 h2
      subst hs4
      refine ⟨lp, dm, ?_, hlp, e1c, hdm, e2c⟩
      rw [e1, e2]
      simp
    · rw [if_neg hc] at h; exact Bool.noConfusion h

theorem emailOk_of_parts (lp dm : List Char) (hlp : lp ≠ [])
    (hlpc : ∀ c ∈ lp, isEmailChar c = true)
    (hdm : dm ≠ []) (hdmc : ∀ c ∈ dm, isEmailChar c = true) :
    emailOk (lp ++ '@' :: dm) = true := by
  unfold emailOk
  rw [takeEmail_append lp '@' dm hlpc rfl]
  dsimp only
  rw [if_neg hlp, if_pos rfl, takeEmail_all dm hdmc]
  dsimp only
  rw [if_neg hdm]
  rfl

/- Concrete instruction fixtures used by the claim instances below. -/

def plainInstr : String :=
  "send email to joe@example.com about meeting saying " ++ qS ++ "hello" ++ qS

def capInstr : String :=
  "send email to JOE@Example.com about Team Meeting saying " ++ qS ++ "See You" ++ qS

def trailInstr : String :=
  "send email to a@b about hi saying " ++ qS ++ "yo" ++ qS ++ " and some trailing text"

/- A grammar-shaped instruction around an arbitrary candidate recipient,
   with fixed subject hi and body yo, used to probe the address check. -/
def probeInstr (r : List Char) : List Char :=
  sendLit ++ (r ++ (aboutLit ++ (['h','i'] ++ (sayingLit ++ (['y','o'] ++ [quoteChar])))))

/-- C1, counterexample: the claim says subject and body are captured
verbatim, but line 21 lowercases the whole instruction before matching, so
an instruction with the subject Meeting and the body Hello yields the task
fields meeting and hello, not the original capitalised text. -/
theorem parse_not_verbatim :
    mock_llm_parse ("send email to joe@example.com about Meeting saying " ++ qS ++ "Hello" ++ qS) =
      some ⟨"joe@example.com", "meeting", "hello"⟩ ∧
    ("meeting" : String) ≠ "Meeting" :=
  ⟨by decide, by decide⟩

/-- C1 (amended): for every instruction whose lowercasing decomposes as the
grammar -- nonempty address-character runs around the at sign, newline-free
subject and body, and no later occurrence of the saying-quote literal that
would shift the greedy match -- the parse succeeds and the task fields
equal the captured groups of the lowercased instruction: the recipient with
its domain preserved, and the subject and body as lowercased text (not
verbatim). -/
theorem parse_matches_grammar_lowercased (instr : String) (lp dm subj b : List Char)
    (hins : lowerL instr.data = sendLit ++ (lp ++ ('@' :: (dm ++ (aboutLit ++
      (subj ++ (sayingLit ++ (b ++ [quoteChar]))))))))
    (hlp : lp ≠ []) (hlpc : ∀ c ∈ lp, isEmailChar c = true)
    (hdm : dm ≠ []) (hdmc : ∀ c ∈ dm, isEmailChar c = true)
    (hsc : ∀ c ∈ subj, isDotChar c = true)
    (hb : b ≠ []) (hbc : ∀ c ∈ b, isDotChar c = true)
    (hno : containsSub sayingLit (sayingTail ++ (b ++ [quoteChar])) = false) :
    mock_llm_parse instr = some ⟨String.mk (lp ++ '@' :: dm), String.mk subj, String.mk b⟩ := by
  unfold mock_llm_parse
  rw [hins]
  exact parseCore_complete lp dm subj b hlp hlpc hdm hdmc hsc hb hbc hno

/-- Witness for C1 at a concrete instruction with capitalised address,
subject and body: all fields come out lowercased. -/
theorem parse_matches_grammar_lowercased_inst :
    mock_llm_parse capInstr = some ⟨"joe@example.com", "team meeting", "see you"⟩ :=
  parse_matches_grammar_lowercased capInstr
    ['j','o','e'] ['e','x','a','m','p','l','e','.','c','o','m']
    ['t','e','a','m',' ','m','e','e','t','i','n','g'] ['s','e','e',' ','y','o','u']
    (by decide) (by decide) (by decide) (by decide) (by decide) (by decide)
    (by decide) (by decide) (by decide)

/-- C2, code-bug evidence: for a fully valid instruction, a supported
provider, and an HTML snapshot that contains every label, plan compilation
does not return a plan and does not merely warn: the advisory loop of
lines 60-67 indexes the labels dict with the lowercased label value (to)
instead of a key (to_label), so it raises KeyError before the membership
test ever runs. -/
theorem advisory_check_raises_keyerror :
    mock_llm_reason plainInstr "compose to subject message body send" "gmail" =
      Except.error (AgentError.pyKeyError "to") := by decide

/-- C3, code-bug evidence: the plan constructed at lines 51-57 does have
exactly the five claimed actions in the fixed order with the provider
vocabulary labels and the task fields as fill values (second and third
conjuncts), but mock_llm_reason never returns it: for every instruction,
snapshot and provider the function fails before the return of line 69,
because the advisory loop raises KeyError on the first fill step (first
conjunct). -/
theorem compile_never_returns_plan :
    (∀ instruction htmlContent provider,
      isOkB (mock_llm_reason instruction htmlContent provider) = false) ∧
    (∀ t : TaskRequest, mkSteps t gmailLabels =
      [Step.click_button "Compose" "button",
       Step.fill_input "To" t.recipient,
       Step.fill_input "Subject" t.subject,
       Step.fill_input "Message Body" t.body,
       Step.click_button "Send" "button"]) ∧
    (∀ t : TaskRequest, mkSteps t outlookLabels =
      [Step.click_button "New message" "button",
       Step.fill_input "To" t.recipient,
       Step.fill_input "Add a subject" t.subject,
       Step.fill_input "Message body" t.body,
       Step.click_button "Send" "button"]) := by
  refine ⟨?_, fun t => rfl, fun t => rfl⟩
  intro instruction htmlContent provider
  unfold mock_llm_reason
  cases hp : mock_llm_parse instruction with
  | none => rfl
  | some task =>
    unfold labelsFor
    by_cases h1 : provider = "gmail"
    · rw [if_pos h1]
      rfl
    · rw [if_neg h1]
      by_cases h2 : provider = "outlook"
      · rw [if_pos h2]
        rfl
      · rw [if_neg h2]
        rfl

/-- C4, counterexample: with the supported provider gmail and an
instruction the parser rejects, the run still navigates to the provider
URL, waits for the load state and queries the page content before the
parse error surfaces, so a rejected instruction does not leave the session
untouched. -/
theorem navigation_precedes_parse_failure :
    executeModel "gmail" "do something impossible" "" (fun _ => true) (fun _ => true) =
      ([Event.goto "https://mail.google.com", Event.waitLoadState, Event.getContent],
       Outcome.failed AgentError.invalidInstruction) := by decide

/-- C4 (amended): provider validation happens in the constructor before any
session operation (an unsupported provider produces no events at all), but
instruction parsing happens only after navigation, the load wait and the
content query, because the page HTML is an input of mock_llm_reason; a
rejected instruction therefore follows those three session operations,
though it still precedes every element resolution and interaction. -/
theorem validation_order_amended :
    (∀ provider instruction pageHtml : String, ∀ visible shotOk : Nat → Bool,
      urlFor provider = none →
      executeModel provider instruction pageHtml visible shotOk =
        ([], Outcome.failed AgentError.unsupportedProvider)) ∧
    (∀ provider url instruction pageHtml : String, ∀ visible shotOk : Nat → Bool,
      urlFor provider = some url →
      parseCore (lowerL instruction.data) = none →
      executeModel provider instruction pageHtml visible shotOk =
        ([Event.goto url, Event.waitLoadState, Event.getContent],
         Outcome.failed AgentError.invalidInstruction)) := by
  constructor
  · intro provider instruction pageHtml visible shotOk h
    unfold executeModel
    rw [h]
  · intro provider url instruction pageHtml visible shotOk hu hp
    unfold executeModel
    rw [hu]
    dsimp only
    unfold mock_llm_reason mock_llm_parse
    rw [hp]

/-- Witness for C4: an unsupported provider fails with no session events,
and a supported provider with an unparseable instruction fails after
exactly the navigation, load-wait and content-query events. -/
theorem validation_order_amended_inst :
    executeModel "yahoo" "x" "" (fun _ => true) (fun _ => true) =
      ([], Outcome.failed AgentError.unsupportedProvider) ∧
    executeModel "gmail" "hello there" "" (fun _ => true) (fun _ => true) =
      ([Event.goto "https://mail.google.com", Event.waitLoadState, Event.getContent],
       Outcome.failed AgentError.invalidInstruction) :=
  ⟨validation_order_amended.1 "yahoo" "x" "" (fun _ => true) (fun _ => true) rfl,
   validation_order_amended.2 "gmail" "https://mail.google.com" "hello there" ""
     (fun _ => true) (fun _ => true) rfl rfl⟩

/-- C5, counterexample: the claim says an instruction with text trailing
the closing quote fails, but re.match only anchors the start of the
pattern, so the trailing text is accepted and a task is produced. -/
theorem trailing_text_accepted :
    mock_llm_parse trailInstr = some ⟨"a@b", "hi", "yo"⟩ := by decide

/-- C5 (amended): every successful parse decomposes the lowercased
instruction as the grammar followed by arbitrary trailing text after the
closing quote; contrapositively, any instruction with no such prefix
decomposition -- missing quotes, missing saying keyword, malformed
address -- fails and produces no task, but text trailing the closing
quote is (contrary to the claim) accepted. -/
theorem parse_sound_decomposition (instr : String) (t : TaskRequest)
    (h : mock_llm_parse instr = some t) :
    ∃ lp dm subj b rest,
      lowerL instr.data = sendLit ++ (lp ++ ('@' :: (dm ++ (aboutLit ++
        (subj ++ (sayingLit ++ (b ++ quoteChar :: rest))))))) ∧
      lp ≠ [] ∧ (∀ c ∈ lp, isEmailChar c = true) ∧
      dm ≠ [] ∧ (∀ c ∈ dm, isEmailChar c = true) ∧
      (∀ c ∈ subj, isDotChar c = true) ∧
      b ≠ [] ∧ (∀ c ∈ b, isDotChar c = true) ∧
      t = ⟨String.mk (lp ++ '@' :: dm), String.mk subj, String.mk b⟩ :=
  parseCore_sound _ t h

/-- Witness for C5 at the trailing-text instruction: its successful parse
exhibits the grammar decomposition with nonempty trailing rest. -/
theorem parse_sound_decomposition_inst :
    ∃ lp dm subj b rest,
      lowerL trailInstr.data = sendLit ++ (lp ++ ('@' :: (dm ++ (aboutLit ++
        (subj ++ (sayingLit ++ (b ++ quoteChar :: rest))))))) ∧
      lp ≠ [] ∧ (∀ c ∈ lp, isEmailChar c = true) ∧
      dm ≠ [] ∧ (∀ c ∈ dm, isEmailChar c = true) ∧
      (∀ c ∈ subj, isDotChar c = true) ∧
      b ≠ [] ∧ (∀ c ∈ b, isDotChar c = true) ∧
      (⟨"a@b", "hi", "yo"⟩ : TaskRequest) =
        ⟨String.mk (lp ++ '@' :: dm), String.mk subj, String.mk b⟩ :=
  parse_sound_decomposition trailInstr ⟨"a@b", "hi", "yo"⟩ (by decide)

/-- C6: in a run whose first k actions resolve and whose action at index k
never becomes visible within the 5000 ms bound (and whose diagnostic
capture succeeds), the executor emits exactly the events of the successful
prefix followed by the failing resolve, the timed-out wait and the
screenshot, the run fails with the resolution timeout at that index, and
no event of any later action is performed. -/
theorem executor_failfast_on_timeout (provider : String)
    (visible shotOk : Nat → Bool) (pre : List Step) (s : Step) (post : List Step)
    (hpre : ∀ j, j < pre.length → visible j = true)
    (hfail : visible pre.length = false)
    (hshot : shotOk pre.length = true) :
    runSteps provider visible shotOk (pre ++ s :: post) 0 =
      (planEvents pre ++ failEvents provider s,
       Outcome.failed (AgentError.resolutionTimedOut pre.length)) := by
  have h := runSteps_firstFail provider visible shotOk pre s post 0
    (fun j hj => by simpa using hpre j hj) (by simpa using hfail)
  rw [h]
  have h0 : (0 : Nat) + pre.length = pre.length := Nat.zero_add _
  rw [h0, if_pos hshot]

/-- Witness for C6: with no element ever visible, the outlook plan stops
after the first action's failing resolve, wait and screenshot, with a
resolution timeout at index 0. -/
theorem executor_failfast_on_timeout_inst :
    runSteps "outlook" (fun _ => false) (fun _ => true)
        (mkSteps exampleTask outlookLabels) 0 =
      (failEvents "outlook" (Step.click_button "New message" "button"),
       Outcome.failed (AgentError.resolutionTimedOut 0)) :=
  executor_failfast_on_timeout "outlook" (fun _ => false) (fun _ => true)
    [] (Step.click_button "New message" "button")
    [Step.fill_input "To" "joe@example.com",
     Step.fill_input "Add a subject" "meeting",
     Step.fill_input "Message body" "hello",
     Step.click_button "Send" "button"]
    (fun j hj => absurd hj (Nat.not_lt_zero j)) rfl rfl

/-- C7, counterexample: the claim says a failing diagnostic capture never
masks the original error, but the screenshot call of line 127 is not
guarded inside the except block, so when it raises, that exception
propagates in place of the original timeout: the surfaced outcome is the
capture failure, not the resolution timeout. -/
theorem capture_failure_surfaces :
    (runSteps "gmail" (fun _ => false) (fun _ => false) exampleSteps 0).2 =
      Outcome.failed (AgentError.captureFailed 0) ∧
    Outcome.failed (AgentError.captureFailed 0) ≠
      Outcome.failed (AgentError.resolutionTimedOut 0) :=
  ⟨by decide, by decide⟩

/-- C7 (amended): a failure of the diagnostic capture is fatal and does
mask the original error: when the action at the first failing index times
out and the screenshot call itself fails, the run surfaces the capture
failure in place of the resolution timeout; the original timeout is only
surfaced when the capture succeeds. -/
theorem capture_failure_masks_original (provider : String)
    (visible shotOk : Nat → Bool) (pre : List Step) (s : Step) (post : List Step)
    (hpre : ∀ j, j < pre.length → visible j = true)
    (hfail : visible pre.length = false)
    (hshot : shotOk pre.length = false) :
    runSteps provider visible shotOk (pre ++ s :: post) 0 =
      (planEvents pre ++ failEvents provider s,
       Outcome.failed (AgentError.captureFailed pre.length)) := by
  have h := runSteps_firstFail provider visible shotOk pre s post 0
    (fun j hj => by simpa using hpre j hj) (by simpa using hfail)
  rw [h]
  have h0 : (0 : Nat) + pre.length = pre.length := Nat.zero_add _
  rw [h0, if_neg (by simp [hshot])]

/-- Witness for C7: with the capture failing at the first action, the
surfaced error of the gmail plan is the capture failure at index 0. -/
theorem capture_failure_masks_original_inst :
    runSteps "gmail" (fun _ => false) (fun _ => false) exampleSteps 0 =
      (failEvents "gmail" (Step.click_button "Compose" "button"),
       Outcome.failed (AgentError.captureFailed 0)) :=
  capture_failure_masks_original "gmail" (fun _ => false) (fun _ => false)
    [] (Step.click_button "Compose" "button")
    [Step.fill_input "To" "joe@example.com",
     Step.fill_input "Subject" "meeting",
     Step.fill_input "Message Body" "hello",
     Step.click_button "Send" "button"]
    (fun j hj => absurd hj (Nat.not_lt_zero j)) rfl rfl

/-- C8: plan compilation is deterministic and stateless: the embedding of
mock_llm_reason is a pure function of the instruction, the HTML snapshot
and the provider (the source touches no mutable state besides logging), so
two calls with the same inputs give the identical plan or the identical
failure. -/
theorem compile_deterministic (instruction htmlContent provider : String) :
    mock_llm_reason instruction htmlContent provider =
      mock_llm_reason instruction htmlContent provider := rfl

/-- C9: with a session where every resolution becomes visible, the
executor performs exactly the per-step session operations -- resolve,
visibility wait, interaction, settle delay -- concatenated in plan order,
one step's block completing before the next begins, and the run
completes. -/
theorem executor_in_plan_order (steps : List Step) (provider : String)
    (visible shotOk : Nat → Bool) (h : ∀ j, visible j = true) :
    runSteps provider visible shotOk steps 0 = (planEvents steps, Outcome.completed) :=
  runSteps_ok provider visible shotOk steps 0 h

/-- Witness for C9: the gmail example plan, with all resolutions visible,
produces exactly its in-order event concatenation and completes. -/
theorem executor_in_plan_order_inst :
    runSteps "gmail" (fun _ => true) (fun _ => true) exampleSteps 0 =
      (planEvents exampleSteps, Outcome.completed) :=
  executor_in_plan_order exampleSteps "gmail" (fun _ => true) (fun _ => true)
    (fun _ => rfl)

/-- C10: the recipient check of the regex accepts exactly the strings of
shape nonempty-run, at sign, nonempty-run over ASCII word characters, dot
and hyphen: embedded in an otherwise fixed instruction, a candidate
recipient parses back out verbatim exactly when it has that shape; in
particular a at b with a dotless domain is admitted while a plus-tagged
local part is rejected. -/
theorem recipient_check_characterization :
    (∀ r : List Char,
      (∃ t, parseCore (probeInstr r) = some t ∧ t.recipient = String.mk r) ↔
        emailOk r = true) ∧
    parseCore (probeInstr ['a', '@', 'b']) =
      some ⟨String.mk ['a', '@', 'b'], String.mk ['h','i'], String.mk ['y','o']⟩ ∧
    parseCore (probeInstr ("user+tag@example.com".data)) = none := by
  refine ⟨?_, by decide, by decide⟩
  intro r
  constructor
  · rintro ⟨t, hp, hr⟩
    obtain ⟨lp, dm, subj, b, rest, he, hlp, hlpc, hdm, hdmc, hsc2, hb, hbc, ht⟩ :=
      parseCore_sound _ _ hp
    subst ht
    have hr2 : lp ++ '@' :: dm = r := congrArg String.data hr
    subst hr2
    exact emailOk_of_parts lp dm hlp hlpc hdm hdmc
  · intro hE
    obtain ⟨lp, dm, hre, hlp, hlpc, hdm, hdmc⟩ := emailOk_decomp r hE
    subst hre
    refine ⟨⟨String.mk (lp ++ '@' :: dm), String.mk ['h','i'], String.mk ['y','o']⟩, ?_, rfl⟩
    have hcomp := parseCore_complete lp dm ['h','i'] ['y','o'] hlp hlpc hdm hdmc
      (by decide) (by decide) (by decide) (by decide)
    have e : probeInstr (lp ++ '@' :: dm) = sendLit ++ (lp ++ ('@' :: (dm ++ (aboutLit ++
        (['h','i'] ++ (sayingLit ++ (['y','o'] ++ [quoteChar]))))))) := by
      unfold probeInstr
      simp [List.append_assoc]
    rw [e]
    exact hcomp
